import Mathlib

/-!
# ccstats: token, cost and hook aggregation

A shallow embedding of `main.go`. The program hands SQL text to an embedded
engine; every query is embedded here as a function on the list of rows of the
table it reads, with SQL NULL as `none`. Costs are exact rationals: the
engine's DOUBLE rounding is outside this development.
-/

namespace CCStats

/-! ## SQL building blocks -/

/-- SQL `COALESCE(x, 0)` on an INTEGER expression. -/
def coalesce (x : Option Int) : Int :=
  match x with
  | some v => v
  | none => 0

/-- SQL `x LIKE 'p%'` used as a `CASE WHEN` condition, for a pattern `p`
without wildcards: true exactly when `x` is not NULL and begins with `p`
(a NULL comparison is not true, so the branch is not taken). -/
def likeStart (x : Option String) (p : String) : Bool :=
  match x with
  | some s => p.data.isPrefixOf s.data
  | none => false

/-- SQL `SUM` over a column: NULL values are skipped and the result is NULL
when no value was seen. -/
def sqlSum {α : Type} [Add α] : List (Option α) → Option α
  | [] => none
  | none :: xs => sqlSum xs
  | some v :: xs =>
    match sqlSum xs with
    | none => some v
    | some s => some (v + s)

/-- SQL `GROUP BY key` with one aggregate: one output row per distinct key
value among the input rows, the aggregate taken over the rows of that key. -/
def groupBy {ρ κ β : Type} [DecidableEq κ] (key : ρ → κ) (agg : List ρ → β)
    (rows : List ρ) : List (κ × β) :=
  (rows.map key).dedup.map (fun k => (k, agg (rows.filter (fun r => decide (key r = k)))))

/-- SQL `ORDER BY value DESC` on the aggregate column. -/
def orderByDesc {κ β : Type} [LinearOrder β] (rows : List (κ × β)) : List (κ × β) :=
  rows.insertionSort (fun a b => b.2 ≤ a.2)

/-- SQL `LIMIT 10`. -/
def limit10 {α : Type} (rows : List α) : List α :=
  rows.take 10

/-- Go `sql.NullInt64`: the `Int64` field reads 0 when the value is NULL. -/
def nullInt64 (x : Option Int) : Int :=
  match x with
  | some v => v
  | none => 0

/-- Go `sql.NullFloat64`: the `Float64` field reads 0 when the value is NULL. -/
def nullFloat64 (x : Option ℚ) : ℚ :=
  match x with
  | some v => v
  | none => 0

/-! ## The usage relation `all_data` -/

/-- One row of `all_data`, reduced to the expressions the queries read. A usage
field holds the value of `json_extract_string(message::JSON, '$.usage.X')::INTEGER`,
`model` the value of `json_extract_string(message::JSON, '$.model')`, and `cwd`
the column of that name. -/
structure UsageRow where
  input_tokens : Option Int
  output_tokens : Option Int
  cache_read_input_tokens : Option Int
  cache_creation_input_tokens : Option Int
  model : Option String
  cwd : Option String
deriving DecidableEq, Repr

/-! ## `tokenStatsQuery` -/

/-- Range of the engine's INTEGER type (32 bits, signed). -/
def inInt32 (x : Int) : Bool :=
  decide (-2147483648 ≤ x) && decide (x ≤ 2147483647)

/-- INTEGER `+` of the engine: the result when it is in range, an error
(`none`) otherwise. -/
def addInt32 (a b : Int) : Option Int :=
  if inInt32 (a + b) then some (a + b) else none

/-- The row expression under `SUM(...) AS grand_total_tokens`: the four fields,
each coalesced to 0, added left to right. -/
def grandRowExpr (r : UsageRow) : Option Int :=
  (addInt32 (coalesce r.input_tokens) (coalesce r.output_tokens)).bind (fun s1 =>
    (addInt32 s1 (coalesce r.cache_read_input_tokens)).bind (fun s2 =>
      addInt32 s2 (coalesce r.cache_creation_input_tokens)))

/-- The evaluation of a row expression on every row; `none` when it fails on
some row. -/
def evalRows {ρ β : Type} (f : ρ → Option β) : List ρ → Option (List β)
  | [] => some []
  | r :: rs =>
    match f r with
    | none => none
    | some v =>
      match evalRows f rs with
      | none => none
      | some vs => some (v :: vs)

/-- The five scanned columns of `tokenStatsQuery`. -/
structure TokenStats where
  inputTokens : Option Int
  outputTokens : Option Int
  cacheReadTokens : Option Int
  cacheCreationTokens : Option Int
  grandTotal : Option Int
deriving DecidableEq, Repr

/-- The query `tokenStatsQuery` over `all_data`; `none` is a query error. The
engine sums INTEGER values in a wider type, so the sums are plain integers. -/
def tokenStatsQuery (rel : List UsageRow) : Option TokenStats :=
  match evalRows grandRowExpr rel with
  | none => none
  | some grands =>
    some
      { inputTokens := sqlSum (rel.map (fun r => r.input_tokens))
        outputTokens := sqlSum (rel.map (fun r => r.output_tokens))
        cacheReadTokens := sqlSum (rel.map (fun r => r.cache_read_input_tokens))
        cacheCreationTokens := sqlSum (rel.map (fun r => r.cache_creation_input_tokens))
        grandTotal := sqlSum (grands.map some) }

/-! ## `costQuery` -/

/-- First `CASE` of `costQuery`: the rate multiplied with `input_tokens`. -/
def inputRate (model : Option String) : ℚ :=
  if likeStart model "claude-opus" then 15.0
  else if likeStart model "claude-haiku" then 0.80
  else 3.0

/-- Second `CASE` of `costQuery`: the rate multiplied with `output_tokens`. -/
def outputRate (model : Option String) : ℚ :=
  if likeStart model "claude-opus" then 75.0
  else if likeStart model "claude-haiku" then 4.0
  else 15.0

/-- Third `CASE` of `costQuery`: the rate multiplied with
`cache_creation_input_tokens`. -/
def cacheWriteRate (model : Option String) : ℚ :=
  if likeStart model "claude-opus" then 18.75
  else if likeStart model "claude-haiku" then 1.00
  else 3.75

/-- Fourth `CASE` of `costQuery`: the rate multiplied with
`cache_read_input_tokens`. -/
def cacheReadRate (model : Option String) : ℚ :=
  if likeStart model "claude-opus" then 1.50
  else if likeStart model "claude-haiku" then 0.08
  else 0.30

/-- The row expression under `SUM(...) AS total_cost_usd`. -/
def costRowExpr (r : UsageRow) : ℚ :=
  ((coalesce r.input_tokens : ℚ) * inputRate r.model
    + (coalesce r.output_tokens : ℚ) * outputRate r.model
    + (coalesce r.cache_creation_input_tokens : ℚ) * cacheWriteRate r.model
    + (coalesce r.cache_read_input_tokens : ℚ) * cacheReadRate r.model) / 1e6

/-- The query `costQuery` over `all_data`: the scanned `total_cost_usd`. -/
def costQuery (rel : List UsageRow) : Option ℚ :=
  sqlSum (rel.map (fun r => some (costRowExpr r)))

/-! ## `costByProjectQuery` -/

/-- The row expression under `SUM(...) AS project_cost_usd`, with the four
`CASE` expressions as they are written in `costByProjectQuery`. -/
def projectCostRowExpr (r : UsageRow) : ℚ :=
  ((coalesce r.input_tokens : ℚ) *
      (if likeStart r.model "claude-opus" then 15.0
       else if likeStart r.model "claude-haiku" then 0.80
       else 3.0)
    + (coalesce r.output_tokens : ℚ) *
      (if likeStart r.model "claude-opus" then 75.0
       else if likeStart r.model "claude-haiku" then 4.0
       else 15.0)
    + (coalesce r.cache_creation_input_tokens : ℚ) *
      (if likeStart r.model "claude-opus" then 18.75
       else if likeStart r.model "claude-haiku" then 1.00
       else 3.75)
    + (coalesce r.cache_read_input_tokens : ℚ) *
      (if likeStart r.model "claude-opus" then 1.50
       else if likeStart r.model "claude-haiku" then 0.08
       else 0.30)) / 1e6

/-- The aggregate `SUM(...) AS project_cost_usd` of one group. A group has at
least one row and the row expression is never NULL, so the sum is a value. -/
def projectCostSum (group : List UsageRow) : ℚ :=
  (group.map projectCostRowExpr).sum

/-- The query `costByProjectQuery` over `all_data`: `WHERE cwd IS NOT NULL`,
`GROUP BY cwd`, `ORDER BY project_cost_usd DESC`, `LIMIT 10`. Groups of equal
cost keep the order in which their `cwd` last occurs in the relation; the
engine leaves that order open. -/
def costByProjectQuery (rel : List UsageRow) : List (Option String × ℚ) :=
  limit10 (orderByDesc (groupBy (fun r => r.cwd) projectCostSum
    (rel.filter (fun r => r.cwd.isSome))))

/-! ## The hook relation `hooks_data` -/

/-- One row of `hooks_data`, reduced to the expressions the queries read:
the column `event_type` and the value of
`json_extract_string(hook_data::JSON, '$.tool.tool')`. -/
structure HookRow where
  event_type : Option String
  tool_name : Option String
deriving DecidableEq, Repr

/-- The query `hooksByTypeQuery`: `GROUP BY event_type`, `COUNT(*)`,
`ORDER BY count DESC`. -/
def hooksByTypeQuery (rel : List HookRow) : List (Option String × Nat) :=
  orderByDesc (groupBy (fun r => r.event_type) List.length rel)

/-- The `WHERE` clause of `toolUsageQuery`. -/
def toolUsageWhere (r : HookRow) : Bool :=
  (decide (r.event_type = some "PreToolUse") || decide (r.event_type = some "PostToolUse"))
    && r.tool_name.isSome

/-- The query `toolUsageQuery`: the `WHERE` clause, `GROUP BY tool_name`,
`COUNT(*)`, `ORDER BY usage_count DESC`, `LIMIT 10`. -/
def toolUsageQuery (rel : List HookRow) : List (Option String × Nat) :=
  limit10 (orderByDesc (groupBy (fun r => r.tool_name) List.length
    (rel.filter toolUsageWhere)))

/-! ## The report: `runCCStats` and `analyzeHooksData` -/

/-- What a run meets outside the program: the outcome of every call that can
fail, and the two relations the engine builds from the log files. -/
structure Env where
  /-- Result of `os.UserHomeDir`; `none` is an error. -/
  homeDir : Option String
  /-- Whether `sql.Open` succeeds. -/
  dbOpens : Bool
  /-- Result of `CREATE TABLE all_data`; `none` is an error. -/
  all_data : Option (List UsageRow)
  /-- The engine rejects `tokenStatsQuery`. -/
  tokenStatsErr : Bool
  /-- The engine rejects `costQuery`. -/
  costErr : Bool
  /-- The engine rejects `costByProjectQuery`. -/
  costByProjectErr : Bool
  /-- Result of `os.Stat` on the hooks directory: false when it reports that
  the directory does not exist. -/
  hooksDirExists : Bool
  /-- Result of `CREATE TABLE IF NOT EXISTS hooks_data`; `none` is an error. -/
  hooks_data : Option (List HookRow)
  /-- The scan of `hookCountQuery` fails. -/
  hookCountErr : Bool
  /-- The engine rejects `hooksByTypeQuery`. -/
  hooksByTypeErr : Bool
  /-- The engine rejects `toolUsageQuery`. -/
  toolUsageErr : Bool

/-- One printed line of the report, with the values it is formatted from. -/
inductive Line where
  | errHomeDir
  | errOpen
  | errCreateTable
  | errTokenStats
  | errCost
  | errCostByProject
  | errScanRow
  | tokenHeader
  | inputTokens (n : Int)
  | outputTokens (n : Int)
  | cacheReadTokens (n : Int)
  | cacheCreationTokens (n : Int)
  | grandTotalTokens (n : Int)
  | costHeader
  | totalCost (c : ℚ)
  | projectHeader
  /-- A project line; the printed name is `filepath.Base` of `cwd`. -/
  | projectCost (cwd : String) (c : ℚ)
  | hooksHeader
  | totalHooks (n : Nat)
  | byTypeHeader
  | byType (eventType : String) (n : Nat)
  | toolHeader
  | toolUsage (tool : String) (n : Nat)
  | noToolUsage
deriving DecidableEq, Repr

/-- The lines of the hooks section. -/
def isHooksLine : Line → Bool
  | .hooksHeader => true
  | .totalHooks _ => true
  | .byTypeHeader => true
  | .byType _ _ => true
  | .toolHeader => true
  | .toolUsage _ _ => true
  | .noToolUsage => true
  | _ => false

/-- The loop over the rows of `costByProjectQuery`: a row whose `cwd` does not
scan into a string prints the scan error and the loop goes on. -/
def projectLines (rows : List (Option String × ℚ)) : List Line :=
  rows.map (fun row =>
    match row.1 with
    | some cwd => Line.projectCost cwd row.2
    | none => Line.errScanRow)

/-- The loop over the rows of `hooksByTypeQuery`: a row that does not scan is
skipped. -/
def byTypeLines (rows : List (Option String × Nat)) : List Line :=
  rows.filterMap (fun row => row.1.map (fun t => Line.byType t row.2))

/-- The loop over the rows of `toolUsageQuery`, and the line printed when no
row was printed. -/
def toolLines (rows : List (Option String × Nat)) : List Line :=
  let printed := rows.filterMap (fun row => row.1.map (fun t => Line.toolUsage t row.2))
  if printed.isEmpty then [Line.noToolUsage] else printed

/-- The function `analyzeHooksData`: the lines it prints. -/
def analyzeHooksData (env : Env) : List Line :=
  if !env.hooksDirExists then []
  else
    match env.hooks_data with
    | none => []
    | some rel =>
      if env.hookCountErr || rel.length == 0 then []
      else
        [Line.hooksHeader, Line.totalHooks rel.length]
          ++ (if env.hooksByTypeErr then []
              else Line.byTypeHeader :: byTypeLines (hooksByTypeQuery rel))
          ++ (if env.toolUsageErr then []
              else Line.toolHeader :: toolLines (toolUsageQuery rel))

/-- The function `runCCStats`: the lines it prints. Every failing step prints
its error and returns; `analyzeHooksData` is the last statement. -/
def runCCStats (env : Env) : List Line :=
  match env.homeDir with
  | none => [Line.errHomeDir]
  | some _ =>
    if !env.dbOpens then [Line.errOpen]
    else
      match env.all_data with
      | none => [Line.errCreateTable]
      | some rel =>
        match (if env.tokenStatsErr then none else tokenStatsQuery rel) with
        | none => [Line.errTokenStats]
        | some t =>
          let tokens :=
            [Line.tokenHeader,
             Line.inputTokens (nullInt64 t.inputTokens),
             Line.outputTokens (nullInt64 t.outputTokens),
             Line.cacheReadTokens (nullInt64 t.cacheReadTokens),
             Line.cacheCreationTokens (nullInt64 t.cacheCreationTokens),
             Line.grandTotalTokens (nullInt64 t.grandTotal)]
          if env.costErr then tokens ++ [Line.errCost]
          else
            let cost := [Line.costHeader, Line.totalCost (nullFloat64 (costQuery rel))]
            if env.costByProjectErr then tokens ++ cost ++ [Line.errCostByProject]
            else
              tokens ++ cost ++ Line.projectHeader :: projectLines (costByProjectQuery rel)
                ++ analyzeHooksData env

/-! ## The recorder: `handleHook` -/

/-- A value decoded by `json.Unmarshal` into `interface{}`. -/
inductive JsonValue where
  | null
  | bool (b : Bool)
  | number (v : ℚ)
  | string (s : String)
  | array (items : List JsonValue)
  | object (fields : List (String × JsonValue))

/-- The decoded input, `map[string]interface{}`, as its list of entries. -/
abbrev HookData := List (String × JsonValue)

/-- The lookup `_, ok := hookData[key]`: whether the key is present. -/
def hasKey (hookData : HookData) (key : String) : Bool :=
  hookData.any (fun kv => kv.1 == key)

/-- The struct `HookEvent`. -/
structure HookEvent where
  Timestamp : Nat
  EventType : String
  HookData : HookData
  ExitCode : Int
  StdoutData : String
  StderrData : String

/-- The event type of `handleHook`: the value of `CLAUDE_HOOK_EVENT` as
`os.Getenv` returns it (empty when the variable is not set), and the type read
off the shape of the input when that value is empty. -/
def eventTypeOf (hookEventVar : String) (hookData : HookData) : String :=
  if hookEventVar == "" then
    if hasKey hookData "tool" then
      if hasKey hookData "result" then "PostToolUse" else "PreToolUse"
    else if hasKey hookData "notification" then "Notification"
    else "Unknown"
  else hookEventVar

/-- What one call of `handleHook` meets outside the program. -/
structure HookWorld where
  /-- Result of `io.ReadAll(os.Stdin)`; `none` is an error. -/
  stdin : Option (List (Fin 256))
  /-- The decoder `json.Unmarshal` into a map; `none` is an error. -/
  unmarshal : List (Fin 256) → Option HookData
  /-- Result of `os.Getenv("CLAUDE_HOOK_EVENT")`. -/
  hookEventVar : String
  /-- Result of `time.Now`. -/
  now : Nat
  /-- Result of `os.UserHomeDir`; `none` is an error. -/
  homeDir : Option String
  /-- Whether `os.MkdirAll` succeeds. -/
  mkdirOk : Bool
  /-- Whether `os.OpenFile` succeeds. -/
  openOk : Bool
  /-- Whether `encoder.Encode` succeeds. -/
  encodeOk : Bool

/-- The errors `handleHook` returns. -/
inductive HookError where
  | readStdin
  | parseJSON
  | homeDir
  | createDir
  | openLog
  | writeLog
deriving DecidableEq, Repr

/-- A completed effect of `handleHook` on the outside. -/
inductive Effect where
  | mkdirAll
  | appendLog (event : HookEvent)
  | stdout (bytes : List (Fin 256))

/-- Whether the effect writes to standard output. -/
def Effect.isStdout : Effect → Bool
  | .stdout _ => true
  | _ => false

/-- The outcome of `handleHook`: the returned error and the effects in the
order they happened. -/
structure HookResult where
  err : Option HookError
  effects : List Effect

/-- The bytes written to standard output, in order. -/
def stdoutBytes : List Effect → List (Fin 256)
  | [] => []
  | .stdout bytes :: es => bytes ++ stdoutBytes es
  | _ :: es => stdoutBytes es

/-- The function `handleHook`. The result of `fmt.Print` is not looked at by
the code; the write to standard output is taken to complete. -/
def handleHook (w : HookWorld) : HookResult :=
  match w.stdin with
  | none => ⟨some .readStdin, []⟩
  | some inputData =>
    match w.unmarshal inputData with
    | none => ⟨some .parseJSON, []⟩
    | some hookData =>
      let event : HookEvent :=
        { Timestamp := w.now
          EventType := eventTypeOf w.hookEventVar hookData
          HookData := hookData
          ExitCode := 0
          StdoutData := ""
          StderrData := "" }
      match w.homeDir with
      | none => ⟨some .homeDir, []⟩
      | some _ =>
        if !w.mkdirOk then ⟨some .createDir, []⟩
        else if !w.openOk then ⟨some .openLog, [.mkdirAll]⟩
        else if !w.encodeOk then ⟨some .writeLog, [.mkdirAll]⟩
        else ⟨none, [.mkdirAll, .appendLog event, .stdout inputData]⟩

/-! ## Reference definitions -/

/-- The four per-million-token rates of a pricing tier. -/
structure PricingTier where
  input : ℚ
  output : ℚ
  cacheWrite : ℚ
  cacheRead : ℚ
deriving DecidableEq

/-- Pricing rule as the specification words it: first match wins. -/
def specTier (model : Option String) : PricingTier :=
  if likeStart model "claude-opus" then ⟨15.0, 75.0, 18.75, 1.50⟩
  else if likeStart model "claude-haiku" then ⟨0.80, 4.0, 1.00, 0.08⟩
  else ⟨3.0, 15.0, 3.75, 0.30⟩

/-- Cost of one record as the specification words it: every NULL token field
replaced by 0, times the rate of the tier, over 1,000,000. -/
def specRecordCost (r : UsageRow) : ℚ :=
  ((r.input_tokens.getD 0 : ℚ) * (specTier r.model).input
    + (r.output_tokens.getD 0 : ℚ) * (specTier r.model).output
    + (r.cache_creation_input_tokens.getD 0 : ℚ) * (specTier r.model).cacheWrite
    + (r.cache_read_input_tokens.getD 0 : ℚ) * (specTier r.model).cacheRead) / 1000000

/-- `GlobalCost` as the specification words it: the sum over all records. -/
def specGlobalCost (rel : List UsageRow) : ℚ :=
  (rel.map specRecordCost).sum

/-- The model name is present and begins with `p`. -/
def StartsWith (model : Option String) (p : String) : Prop :=
  ∃ s rest : String, model = some s ∧ s = p ++ rest

/-- The object has a field of this name. -/
def HasField (hookData : HookData) (key : String) : Prop :=
  ∃ v : JsonValue, (key, v) ∈ hookData

/-- Every step of the usage report succeeds: home directory, engine, table,
token totals, global cost and cost by project. -/
def usageOk (env : Env) : Bool :=
  env.homeDir.isSome && env.dbOpens &&
    (match env.all_data with
     | none => false
     | some rel =>
       !env.tokenStatsErr && (tokenStatsQuery rel).isSome && !env.costErr
         && !env.costByProjectErr)

/-- The token section of the report, from the five scanned totals. -/
def tokenSection (t : TokenStats) : List Line :=
  [Line.tokenHeader,
   Line.inputTokens (nullInt64 t.inputTokens),
   Line.outputTokens (nullInt64 t.outputTokens),
   Line.cacheReadTokens (nullInt64 t.cacheReadTokens),
   Line.cacheCreationTokens (nullInt64 t.cacheCreationTokens),
   Line.grandTotalTokens (nullInt64 t.grandTotal)]

/-- The cost section of the report. -/
def costSection (rel : List UsageRow) : List Line :=
  [Line.costHeader, Line.totalCost (nullFloat64 (costQuery rel))]

/-- The cost-by-project section of the report. -/
def projectSection (rel : List UsageRow) : List Line :=
  Line.projectHeader :: projectLines (costByProjectQuery rel)

/-- The same run with no hooks directory on disk. -/
def withoutHooks (env : Env) : Env :=
  { env with hooksDirExists := false }

/-- The same run with another hooks side: directory, hook records and the
failures inside the hooks report. -/
def withHooksSide (env : Env) (dir : Bool) (hooks : Option (List HookRow))
    (countErr byTypeErr toolErr : Bool) : Env :=
  { env with
    hooksDirExists := dir
    hooks_data := hooks
    hookCountErr := countErr
    hooksByTypeErr := byTypeErr
    toolUsageErr := toolErr }

/-- A run whose table creation fails while hook logs are on disk. -/
def envCreateTableFails : Env :=
  { homeDir := some "/home/u"
    dbOpens := true
    all_data := none
    tokenStatsErr := false
    costErr := false
    costByProjectErr := false
    hooksDirExists := true
    hooks_data := some [⟨some "PreToolUse", some "Bash"⟩]
    hookCountErr := false
    hooksByTypeErr := false
    toolUsageErr := false }

/-- A run in which every step succeeds and hook logs are on disk. -/
def envAllOk : Env :=
  { homeDir := some "/home/u"
    dbOpens := true
    all_data := some [⟨some 100, some 50, none, none, some "claude-opus-4", some "/a"⟩]
    tokenStatsErr := false
    costErr := false
    costByProjectErr := false
    hooksDirExists := true
    hooks_data := some [⟨some "PreToolUse", some "Bash"⟩]
    hookCountErr := false
    hooksByTypeErr := false
    toolUsageErr := false }

/-- A run in which the cost query fails while hook logs are on disk. -/
def envCostFails : Env :=
  { homeDir := some "/home/u"
    dbOpens := true
    all_data := some [⟨some 100, some 50, none, none, some "claude-opus-4", some "/a"⟩]
    tokenStatsErr := false
    costErr := true
    costByProjectErr := false
    hooksDirExists := true
    hooks_data := some [⟨some "PreToolUse", some "Bash"⟩]
    hookCountErr := false
    hooksByTypeErr := false
    toolUsageErr := false }

/-- A call of the recorder in which every step succeeds, on an input that
decodes to the given object, with the given value of `CLAUDE_HOOK_EVENT`. -/
def worldOk (input : List (Fin 256)) (hookData : HookData) (hookEventVar : String) :
    HookWorld :=
  { stdin := some input
    unmarshal := fun _ => some hookData
    hookEventVar := hookEventVar
    now := 0
    homeDir := some "/home/u"
    mkdirOk := true
    openOk := true
    encodeOk := true }

/-! # Theorems -/

/-! ## Lemmas on the building blocks -/

theorem likeStart_iff (model : Option String) (p : String) :
    likeStart model p = true ↔ StartsWith model p := by
  cases model with
  | none => simp [likeStart, StartsWith]
  | some s =>
    simp only [likeStart, StartsWith, List.isPrefixOf_iff_prefix]
    constructor
    · rintro ⟨t, ht⟩
      refine ⟨s, ⟨t⟩, rfl, ?_⟩
      apply String.ext
      simp [ht]
    · rintro ⟨s1, rest, h1, h2⟩
      cases h1
      refine ⟨rest.data, ?_⟩
      rw [h2]
      simp

theorem coalesce_eq_getD (x : Option Int) : coalesce x = x.getD 0 := by
  cases x <;> rfl

theorem sqlSum_getD {α : Type} [AddMonoid α] (xs : List (Option α)) :
    (sqlSum xs).getD 0 = (xs.map (fun x => x.getD 0)).sum := by
  induction xs with
  | nil => rfl
  | cons x xs ih =>
    cases x with
    | none => simpa [sqlSum] using ih
    | some v =>
      cases h : sqlSum xs with
      | none => simp [sqlSum, h] at ih ⊢; simp [← ih]
      | some s => simp [sqlSum, h] at ih ⊢; simp [← ih]

theorem nullInt64_sqlSum (xs : List (Option Int)) :
    nullInt64 (sqlSum xs) = (xs.map coalesce).sum := by
  have h := sqlSum_getD xs
  have e : (fun x : Option Int => x.getD 0) = coalesce := by
    funext x; exact (coalesce_eq_getD x).symm
  rw [e] at h
  rw [← h]
  cases sqlSum xs <;> rfl

theorem nullFloat64_sqlSum (xs : List (Option ℚ)) :
    nullFloat64 (sqlSum xs) = (xs.map (fun x => x.getD 0)).sum := by
  rw [← sqlSum_getD xs]
  cases sqlSum xs <;> rfl

/-! ## Pricing and global cost -/

theorem costRowExpr_eq_spec (r : UsageRow) : costRowExpr r = specRecordCost r := by
  simp only [costRowExpr, specRecordCost, inputRate, outputRate, cacheWriteRate, cacheReadRate,
    specTier, coalesce_eq_getD]
  split_ifs <;> norm_num

theorem projectCostRowExpr_eq (r : UsageRow) : projectCostRowExpr r = costRowExpr r := by
  rfl

/-- C1: pricing-tier resolution is first-match-wins by prefix. For every record the
four rates of `costQuery` are (15.0, 75.0, 18.75, 1.50) when the model name starts
with "claude-opus"; otherwise (0.80, 4.0, 1.00, 0.08) when it starts with
"claude-haiku"; otherwise, also when the model is NULL, (3.0, 15.0, 3.75, 0.30). The
four rates of a record therefore always come from one tier. -/
theorem pricing_tier_first_match (r : UsageRow) :
    (StartsWith r.model "claude-opus" →
      (inputRate r.model, outputRate r.model, cacheWriteRate r.model, cacheReadRate r.model)
        = (15.0, 75.0, 18.75, 1.50))
    ∧ (¬ StartsWith r.model "claude-opus" → StartsWith r.model "claude-haiku" →
      (inputRate r.model, outputRate r.model, cacheWriteRate r.model, cacheReadRate r.model)
        = (0.80, 4.0, 1.00, 0.08))
    ∧ (¬ StartsWith r.model "claude-opus" → ¬ StartsWith r.model "claude-haiku" →
      (inputRate r.model, outputRate r.model, cacheWriteRate r.model, cacheReadRate r.model)
        = (3.0, 15.0, 3.75, 0.30))
    ∧ (r.model = none →
      (inputRate r.model, outputRate r.model, cacheWriteRate r.model, cacheReadRate r.model)
        = (3.0, 15.0, 3.75, 0.30)) := by
  simp only [← likeStart_iff]
  refine ⟨?_, ?_, ?_, ?_⟩
  · intro h
    simp [inputRate, outputRate, cacheWriteRate, cacheReadRate, h]
  · intro h1 h2
    simp [inputRate, outputRate, cacheWriteRate, cacheReadRate, h1, h2]
  · intro h1 h2
    simp [inputRate, outputRate, cacheWriteRate, cacheReadRate, h1, h2]
  · intro h
    simp [inputRate, outputRate, cacheWriteRate, cacheReadRate, h, likeStart]

theorem pricing_tier_first_match_witness :
    (inputRate (some "claude-opus-4"), outputRate (some "claude-opus-4"),
      cacheWriteRate (some "claude-opus-4"), cacheReadRate (some "claude-opus-4"))
        = ((15.0 : ℚ), (75.0 : ℚ), (18.75 : ℚ), (1.50 : ℚ))
    ∧ (inputRate none, outputRate none, cacheWriteRate none, cacheReadRate none)
        = ((3.0 : ℚ), (15.0 : ℚ), (3.75 : ℚ), (0.30 : ℚ)) :=
  ⟨(pricing_tier_first_match ⟨none, none, none, none, some "claude-opus-4", none⟩).1
      ⟨"claude-opus-4", "-4", rfl, by decide⟩,
   (pricing_tier_first_match ⟨none, none, none, none, none, none⟩).2.2.2 rfl⟩

/-- C2: the cost reported by `costQuery` is the sum over all records of
(input*inputRate + output*outputRate + cacheCreation*cacheWriteRate +
cacheRead*cacheReadRate) / 1,000,000, every NULL token field read as 0 and the rates
taken from the tier of the record; a record whose usage fields are all NULL
contributes 0 and its sum is 0, not NULL; the single record input_tokens=100,
output_tokens=50, model="claude-opus-4" costs 0.00525. -/
theorem global_cost_formula :
    (∀ rel : List UsageRow, nullFloat64 (costQuery rel) = specGlobalCost rel)
    ∧ (∀ (model cwd : Option String) (rel : List UsageRow),
        nullFloat64 (costQuery (⟨none, none, none, none, model, cwd⟩ :: rel))
          = nullFloat64 (costQuery rel))
    ∧ (∀ model cwd : Option String,
        costQuery [⟨none, none, none, none, model, cwd⟩] = some 0)
    ∧ (∀ cwd : Option String,
        costQuery [⟨some 100, some 50, none, none, some "claude-opus-4", cwd⟩]
          = some 0.00525) := by
  refine ⟨?_, ?_, ?_, ?_⟩
  · intro rel
    rw [costQuery, nullFloat64_sqlSum, specGlobalCost, List.map_map]
    congr 1
    apply List.map_congr_left
    intro r _
    simp [costRowExpr_eq_spec]
  · intro model cwd rel
    simp only [costQuery, nullFloat64_sqlSum, List.map_map, List.map_cons, List.sum_cons]
    simp [costRowExpr, coalesce]
  · intro model cwd
    simp [costQuery, sqlSum, costRowExpr, coalesce]
  · intro cwd
    have h : likeStart (some "claude-opus-4") "claude-opus" = true := by decide
    simp only [costQuery, List.map_cons, List.map_nil, sqlSum, costRowExpr, coalesce, inputRate,
      outputRate, cacheWriteRate, cacheReadRate, h]
    norm_num

/-! ## Token totals -/

theorem evalRows_grand (rel : List UsageRow) (gs : List Int)
    (h : evalRows grandRowExpr rel = some gs) :
    gs.sum = (rel.map (fun r => coalesce r.input_tokens)).sum
      + (rel.map (fun r => coalesce r.output_tokens)).sum
      + (rel.map (fun r => coalesce r.cache_read_input_tokens)).sum
      + (rel.map (fun r => coalesce r.cache_creation_input_tokens)).sum := by
  induction rel generalizing gs with
  | nil =>
    simp [evalRows] at h
    subst h
    simp
  | cons r rs ih =>
    simp only [evalRows] at h
    cases hr : grandRowExpr r with
    | none => simp [hr] at h
    | some v =>
      cases hrs : evalRows grandRowExpr rs with
      | none => simp [hr, hrs] at h
      | some vs =>
        simp only [hr, hrs, Option.some.injEq] at h
        subst h
        have hv : v = coalesce r.input_tokens + coalesce r.output_tokens
            + coalesce r.cache_read_input_tokens + coalesce r.cache_creation_input_tokens := by
          simp only [grandRowExpr, addInt32] at hr
          by_cases h1 : inInt32 (coalesce r.input_tokens + coalesce r.output_tokens) = true
          · rw [if_pos h1, Option.some_bind] at hr
            by_cases h2 : inInt32 (coalesce r.input_tokens + coalesce r.output_tokens
                + coalesce r.cache_read_input_tokens) = true
            · rw [if_pos h2, Option.some_bind] at hr
              by_cases h3 : inInt32 (coalesce r.input_tokens + coalesce r.output_tokens
                  + coalesce r.cache_read_input_tokens
                  + coalesce r.cache_creation_input_tokens) = true
              · rw [if_pos h3] at hr
                exact (Option.some.inj hr).symm
              · rw [if_neg h3] at hr
                cases hr
            · rw [if_neg h2, Option.none_bind] at hr
              cases hr
          · rw [if_neg h1, Option.none_bind] at hr
            cases hr
        simp only [List.sum_cons, List.map_cons, ih vs hrs, hv]
        ring

theorem evalRows_isSome {ρ β : Type} (f : ρ → Option β) (rows : List ρ)
    (h : ∀ r ∈ rows, (f r).isSome = true) : (evalRows f rows).isSome = true := by
  induction rows with
  | nil => rfl
  | cons r rs ih =>
    have h1 := h r (List.mem_cons_self r rs)
    have h2 := ih (fun x hx => h x (List.mem_cons_of_mem r hx))
    cases hr : f r with
    | none => simp [hr] at h1
    | some v =>
      cases hrs : evalRows f rs with
      | none => simp [hrs] at h2
      | some vs => simp [evalRows, hr, hrs]

/-- C3: for every relation, `tokenStatsQuery` returns totals unless the INTEGER sum
of some row is out of range, and whenever it returns, the reported grand total (sum
over rows of the four fields, each coalesced to 0) equals the sum of the four reported
per-field totals (each a SUM that skips NULL and reads 0 when all rows are NULL). The
five reported numbers are those sums: each per-field total is the sum of the field
over the rows with NULL contributing nothing, and the grand total is the sum over the
rows of the four fields with NULL read as 0. -/
theorem grand_total_agrees (rel : List UsageRow) :
    ((∀ r ∈ rel, (grandRowExpr r).isSome = true) → (tokenStatsQuery rel).isSome = true)
    ∧ (∀ t : TokenStats, tokenStatsQuery rel = some t →
      nullInt64 t.grandTotal
        = nullInt64 t.inputTokens + nullInt64 t.outputTokens
          + nullInt64 t.cacheReadTokens + nullInt64 t.cacheCreationTokens)
    ∧ (∀ t : TokenStats, tokenStatsQuery rel = some t →
      nullInt64 t.inputTokens = (rel.map (fun r => r.input_tokens.getD 0)).sum
      ∧ nullInt64 t.outputTokens = (rel.map (fun r => r.output_tokens.getD 0)).sum
      ∧ nullInt64 t.cacheReadTokens
          = (rel.map (fun r => r.cache_read_input_tokens.getD 0)).sum
      ∧ nullInt64 t.cacheCreationTokens
          = (rel.map (fun r => r.cache_creation_input_tokens.getD 0)).sum
      ∧ nullInt64 t.grandTotal
          = (rel.map (fun r => r.input_tokens.getD 0 + r.output_tokens.getD 0
              + r.cache_read_input_tokens.getD 0
              + r.cache_creation_input_tokens.getD 0)).sum) := by
  refine ⟨?_, ?_, ?_⟩
  · intro h
    have := evalRows_isSome grandRowExpr rel h
    cases he : evalRows grandRowExpr rel with
    | none => simp [he] at this
    | some gs => simp [tokenStatsQuery, he]
  · intro t ht
    cases he : evalRows grandRowExpr rel with
    | none => simp [tokenStatsQuery, he] at ht
    | some gs =>
      simp only [tokenStatsQuery, he, Option.some.injEq] at ht
      subst ht
      simp only [nullInt64_sqlSum, List.map_map]
      have e : (coalesce ∘ some) = (id : Int → Int) := by
        funext x; rfl
      rw [e, List.map_id, evalRows_grand rel gs he]
      rfl
  · intro t ht
    cases he : evalRows grandRowExpr rel with
    | none => simp [tokenStatsQuery, he] at ht
    | some gs =>
      simp only [tokenStatsQuery, he, Option.some.injEq] at ht
      subst ht
      simp only [nullInt64_sqlSum, List.map_map]
      have e : (coalesce ∘ some) = (id : Int → Int) := by
        funext x; rfl
      rw [e, List.map_id, evalRows_grand rel gs he]
      simp [List.sum_map_add, Function.comp_def, coalesce_eq_getD]

theorem grand_total_agrees_witness :
    tokenStatsQuery [⟨some 100, none, some 7, none, none, none⟩, ⟨none, some 50, none, none, none, none⟩]
      = some ⟨some 100, some 50, some 7, none, some 157⟩
    ∧ nullInt64 (some 157) = nullInt64 (some 100) + nullInt64 (some 50)
        + nullInt64 (some 7) + nullInt64 none :=
  ⟨by decide,
   (grand_total_agrees [⟨some 100, none, some 7, none, none, none⟩,
      ⟨none, some 50, none, none, none, none⟩]).2.1 ⟨some 100, some 50, some 7, none, some 157⟩
      (by decide)⟩

/-! ## Grouping, ordering and truncation -/

theorem groupBy_keys {ρ κ β : Type} [DecidableEq κ] (key : ρ → κ) (agg : List ρ → β)
    (rows : List ρ) : (groupBy key agg rows).map Prod.fst = (rows.map key).dedup := by
  simp [groupBy, List.map_map, Function.comp_def]

theorem mem_groupBy {ρ κ β : Type} [DecidableEq κ] (key : ρ → κ) (agg : List ρ → β)
    (rows : List ρ) (e : κ × β) (h : e ∈ groupBy key agg rows) :
    e.1 ∈ rows.map key ∧ e.2 = agg (rows.filter (fun r => decide (key r = e.1))) := by
  simp only [groupBy, List.mem_map, List.mem_dedup] at h
  obtain ⟨k, ⟨r, hr, hk⟩, he⟩ := h
  subst he
  exact ⟨List.mem_map.mpr ⟨r, hr, hk⟩, rfl⟩

theorem orderByDesc_perm {κ β : Type} [LinearOrder β] (rows : List (κ × β)) :
    (orderByDesc rows).Perm rows :=
  List.perm_insertionSort _ rows

theorem orderByDesc_sorted {κ β : Type} [LinearOrder β] (rows : List (κ × β)) :
    (orderByDesc rows).Pairwise (fun a b => b.2 ≤ a.2) := by
  haveI : IsTotal (κ × β) (fun a b => b.2 ≤ a.2) := ⟨fun a b => le_total b.2 a.2⟩
  haveI : IsTrans (κ × β) (fun a b => b.2 ≤ a.2) := ⟨fun _ _ _ h1 h2 => le_trans h2 h1⟩
  exact List.sorted_insertionSort (fun a b : κ × β => b.2 ≤ a.2) rows

theorem limit10_sublist {α : Type} (rows : List α) : (limit10 rows).Sublist rows :=
  List.take_sublist 10 rows

theorem limit10_length {α : Type} (rows : List α) : (limit10 rows).length ≤ 10 := by
  simp [limit10]

theorem limit10_eq_self {α : Type} (rows : List α) (h : rows.length ≤ 10) :
    limit10 rows = rows :=
  List.take_of_length_le h

theorem mem_topGroups {ρ κ β : Type} [DecidableEq κ] [LinearOrder β] (key : ρ → κ)
    (agg : List ρ → β) (rows : List ρ) (e : κ × β)
    (h : e ∈ limit10 (orderByDesc (groupBy key agg rows))) :
    e.1 ∈ rows.map key ∧ e.2 = agg (rows.filter (fun r => decide (key r = e.1))) :=
  mem_groupBy key agg rows e
    ((orderByDesc_perm _).mem_iff.mp ((limit10_sublist _).subset h))

theorem topGroups_keys_nodup {ρ κ β : Type} [DecidableEq κ] [LinearOrder β] (key : ρ → κ)
    (agg : List ρ → β) (rows : List ρ) :
    ((limit10 (orderByDesc (groupBy key agg rows))).map Prod.fst).Nodup := by
  have h1 : ((groupBy key agg rows).map Prod.fst).Nodup := by
    rw [groupBy_keys]
    exact List.nodup_dedup _
  have h2 : ((orderByDesc (groupBy key agg rows)).map Prod.fst).Nodup :=
    ((orderByDesc_perm (groupBy key agg rows)).map Prod.fst).nodup_iff.mpr h1
  exact List.Nodup.sublist ((limit10_sublist _).map Prod.fst) h2

theorem topGroups_sorted {ρ κ β : Type} [DecidableEq κ] [LinearOrder β] (key : ρ → κ)
    (agg : List ρ → β) (rows : List ρ) :
    (limit10 (orderByDesc (groupBy key agg rows))).Pairwise (fun a b => b.2 ≤ a.2) :=
  List.Pairwise.sublist (limit10_sublist _) (orderByDesc_sorted _)

theorem topGroups_complete {κ β : Type} [LinearOrder β] (groups : List (κ × β))
    (x : κ × β) (hx : x ∈ groups) :
    x ∈ limit10 (orderByDesc groups)
      ∨ ((limit10 (orderByDesc groups)).length = 10
          ∧ ∀ e ∈ limit10 (orderByDesc groups), x.2 ≤ e.2) := by
  have hxs : x ∈ orderByDesc groups := (orderByDesc_perm groups).mem_iff.mpr hx
  have hsplit := List.take_append_drop 10 (orderByDesc groups)
  rw [← hsplit, List.mem_append] at hxs
  rcases hxs with h | h
  · exact Or.inl h
  · right
    constructor
    · have hlt : 10 < (orderByDesc groups).length := by
        by_contra hle
        rw [List.drop_of_length_le (Nat.le_of_not_lt hle)] at h
        cases h
      simp only [limit10, List.length_take]
      omega
    · intro e he
      have hs := orderByDesc_sorted groups
      rw [← hsplit, List.pairwise_append] at hs
      exact hs.2.2 e he x h

theorem sqlSum_cons_some {α : Type} [Add α] (v : α) (xs : List (Option α)) :
    sqlSum (some v :: xs) = match sqlSum xs with
      | none => some v
      | some s => some (v + s) := rfl

theorem sqlSum_map_some {α ρ : Type} [AddMonoid α] (f : ρ → α) (rows : List ρ)
    (h : rows ≠ []) : sqlSum (rows.map (fun r => some (f r))) = some ((rows.map f).sum) := by
  induction rows with
  | nil => exact absurd rfl h
  | cons r rs ih =>
    cases rs with
    | nil => simp [sqlSum]
    | cons r2 rs2 =>
      rw [List.map_cons, sqlSum_cons_some, ih (List.cons_ne_nil r2 rs2)]
      simp

/-! ## Cost by project -/

theorem filter_cwd_some (rel : List UsageRow) (c : String) :
    (rel.filter (fun r => r.cwd.isSome)).filter (fun r => decide (r.cwd = some c))
      = rel.filter (fun r => decide (r.cwd = some c)) := by
  rw [List.filter_filter]
  apply List.filter_congr
  intro r _
  by_cases h : r.cwd = some c <;> simp [h]

/-- C4: for every relation, every entry of `costByProjectQuery` carries a non-NULL
`cwd` that some record has, records whose `cwd` is NULL have no effect on the result,
no two entries share a `cwd`, and there are at most 10 entries. -/
theorem cost_by_project_shape (rel : List UsageRow) :
    (∀ e ∈ costByProjectQuery rel, ∃ c : String, e.1 = some c ∧ ∃ r ∈ rel, r.cwd = some c)
    ∧ costByProjectQuery rel = costByProjectQuery (rel.filter (fun r => r.cwd.isSome))
    ∧ ((costByProjectQuery rel).map Prod.fst).Nodup
    ∧ (costByProjectQuery rel).length ≤ 10 := by
  refine ⟨?_, ?_, ?_, ?_⟩
  · intro e he
    have h := (mem_topGroups _ _ _ e he).1
    simp only [List.mem_map, List.mem_filter] at h
    obtain ⟨r, ⟨hr, hs⟩, hk⟩ := h
    cases hc : r.cwd with
    | none => simp [hc] at hs
    | some c => exact ⟨c, by rw [← hk, hc], r, hr, hc⟩
  · simp [costByProjectQuery, List.filter_filter]
  · exact topGroups_keys_nodup _ _ _
  · exact limit10_length _

/-- C5 (as amended): for every relation, the entries of `costByProjectQuery` are in
non-increasing order of cost: the cost of an entry is at least the cost of every
entry after it. -/
theorem cost_by_project_sorted (rel : List UsageRow) :
    (costByProjectQuery rel).Pairwise (fun a b => b.2 ≤ a.2) :=
  topGroups_sorted _ _ _

/-- C6: for every relation and every entry of `costByProjectQuery`, the cost of the
entry is the value of `costQuery` on the records whose `cwd` is the entry's. -/
theorem project_cost_is_global_cost (rel : List UsageRow) (e : Option String × ℚ)
    (h : e ∈ costByProjectQuery rel) :
    costQuery (rel.filter (fun r => decide (r.cwd = e.1))) = some e.2 := by
  have hm := mem_topGroups _ _ _ e h
  obtain ⟨h1, h2⟩ := hm
  simp only [List.mem_map, List.mem_filter] at h1
  obtain ⟨r, ⟨hr, hs⟩, hk⟩ := h1
  cases hc : r.cwd with
  | none => simp [hc] at hs
  | some c =>
    have hk2 : e.1 = some c := by rw [← hk, hc]
    rw [hk2] at h2 ⊢
    rw [filter_cwd_some] at h2
    have hne : rel.filter (fun r => decide (r.cwd = some c)) ≠ [] := by
      intro hnil
      have : r ∈ rel.filter (fun r => decide (r.cwd = some c)) := by
        simp [List.mem_filter, hr, hc]
      rw [hnil] at this
      cases this
    rw [costQuery, sqlSum_map_some costRowExpr _ hne, h2]
    rfl

theorem project_cost_is_global_cost_witness :
    ((some "/a", (0.00525 : ℚ)) ∈ costByProjectQuery
        [⟨some 100, some 50, none, none, some "claude-opus-4", some "/a"⟩,
         ⟨some 10, none, none, none, none, none⟩])
    ∧ costQuery
        ([(⟨some 100, some 50, none, none, some "claude-opus-4", some "/a"⟩ : UsageRow),
          ⟨some 10, none, none, none, none, none⟩].filter
            (fun r => decide (r.cwd = some "/a"))) = some (0.00525 : ℚ) :=
  have hmem : ((some "/a", (0.00525 : ℚ)) ∈ costByProjectQuery
      [⟨some 100, some 50, none, none, some "claude-opus-4", some "/a"⟩,
       ⟨some 10, none, none, none, none, none⟩]) := by
    have hl : likeStart (some "claude-opus-4") "claude-opus" = true := by decide
    have hk : ((([⟨some 100, some 50, none, none, some "claude-opus-4", some "/a"⟩,
        ⟨some 10, none, none, none, none, none⟩] : List UsageRow).filter
          (fun r => r.cwd.isSome)).map (fun r => r.cwd)).dedup = [some "/a"] := by decide
    simp only [costByProjectQuery, groupBy, hk]
    simp [limit10, orderByDesc, projectCostSum, projectCostRowExpr, coalesce, hl]
    norm_num
  ⟨hmem, project_cost_is_global_cost _ _ hmem⟩

/-- C5 (as stated) fails: two projects of equal cost are both returned, and the first
is not strictly more expensive than the second. -/
theorem cost_by_project_not_strict :
    ¬ (costByProjectQuery
        [⟨some 100, none, none, none, none, some "/a"⟩,
         ⟨some 100, none, none, none, none, some "/b"⟩]).Chain' (fun a b => b.2 < a.2) := by
  have hk : ((([⟨some 100, none, none, none, none, some "/a"⟩,
      ⟨some 100, none, none, none, none, some "/b"⟩] : List UsageRow).filter
        (fun r => r.cwd.isSome)).map (fun r => r.cwd)).dedup = [some "/a", some "/b"] := by
    decide
  simp only [costByProjectQuery, groupBy, hk]
  simp [limit10, orderByDesc, projectCostSum, projectCostRowExpr, coalesce, likeStart]

/-! ## Tool usage -/

theorem toolUsageWhere_filter (rel : List HookRow) (name : String) :
    (rel.filter toolUsageWhere).filter (fun r => decide (r.tool_name = some name))
      = rel.filter (fun r =>
          (decide (r.event_type = some "PreToolUse")
            || decide (r.event_type = some "PostToolUse"))
          && decide (r.tool_name = some name)) := by
  rw [List.filter_filter]
  apply List.filter_congr
  intro r _
  by_cases h : r.tool_name = some name <;> simp [h, toolUsageWhere]

/-- C8: for every hook relation, no two entries of `toolUsageQuery` name the same
tool; the count of an entry is the number of records whose `event_type` is PreToolUse
or PostToolUse and whose `hook_data.tool.tool` is the entry's tool name (so a record
of another event type never counts), and it is positive; the entries are in
non-increasing order of count; there are at most 10; and every tool name of a record
whose `event_type` is PreToolUse or PostToolUse has its entry, unless the list is
full with 10 entries whose counts are all at least the count of that tool. -/
theorem tool_usage_shape (rel : List HookRow) :
    ((toolUsageQuery rel).map Prod.fst).Nodup
    ∧ (∀ e ∈ toolUsageQuery rel, ∃ name : String, e.1 = some name ∧ 0 < e.2 ∧
        e.2 = rel.countP (fun r =>
          (decide (r.event_type = some "PreToolUse")
            || decide (r.event_type = some "PostToolUse"))
          && decide (r.tool_name = some name)))
    ∧ (toolUsageQuery rel).Pairwise (fun a b => b.2 ≤ a.2)
    ∧ (toolUsageQuery rel).length ≤ 10
    ∧ (∀ r ∈ rel, ∀ name : String,
        (r.event_type = some "PreToolUse" ∨ r.event_type = some "PostToolUse") →
        r.tool_name = some name →
          (∃ e ∈ toolUsageQuery rel, e.1 = some name)
          ∨ ((toolUsageQuery rel).length = 10
              ∧ ∀ e ∈ toolUsageQuery rel,
                  rel.countP (fun r =>
                    (decide (r.event_type = some "PreToolUse")
                      || decide (r.event_type = some "PostToolUse"))
                    && decide (r.tool_name = some name)) ≤ e.2)) := by
  refine ⟨topGroups_keys_nodup _ _ _, ?_, topGroups_sorted _ _ _, limit10_length _, ?_⟩
  · intro e he
    obtain ⟨h1, h2⟩ := mem_topGroups _ _ _ e he
    simp only [List.mem_map, List.mem_filter] at h1
    obtain ⟨r, ⟨hr, hw⟩, hk⟩ := h1
    cases hc : r.tool_name with
    | none => simp [toolUsageWhere, hc] at hw
    | some name =>
      have hk2 : e.1 = some name := by rw [← hk, hc]
      rw [hk2, toolUsageWhere_filter] at h2
      refine ⟨name, hk2, ?_, ?_⟩
      · rw [h2]
        apply List.length_pos_of_mem (a := r)
        simp only [toolUsageWhere, hc] at hw
        simp [List.mem_filter, hr, hc]
        simpa using hw
      · rw [h2, List.countP_eq_length_filter]
  · intro r hr name hev htool
    have hw : toolUsageWhere r = true := by
      simp only [toolUsageWhere, htool, Option.isSome_some, Bool.and_true, Bool.or_eq_true,
        decide_eq_true_eq]
      exact hev
    have hx : ((some name, ((rel.filter toolUsageWhere).filter
        (fun r => decide (r.tool_name = some name))).length) : Option String × Nat)
        ∈ groupBy (fun r : HookRow => r.tool_name) List.length
            (rel.filter toolUsageWhere) := by
      simp only [groupBy, List.mem_map, List.mem_dedup]
      exact ⟨some name, ⟨r, List.mem_filter.mpr ⟨hr, hw⟩, htool⟩, rfl⟩
    rcases topGroups_complete _ _ hx with h | ⟨hlen, hall⟩
    · exact Or.inl ⟨_, h, rfl⟩
    · right
      refine ⟨hlen, ?_⟩
      intro e he
      have := hall e he
      rw [toolUsageWhere_filter, ← List.countP_eq_length_filter] at this
      exact this

theorem tool_usage_shape_witness :
    toolUsageQuery
        [⟨some "PreToolUse", some "Bash"⟩, ⟨some "PostToolUse", some "Bash"⟩,
         ⟨some "Notification", some "Read"⟩, ⟨some "PreToolUse", some "Edit"⟩,
         ⟨some "PreToolUse", none⟩, ⟨none, some "Edit"⟩]
      = [(some "Bash", 2), (some "Edit", 1)]
    ∧ (∃ e ∈ toolUsageQuery
        [⟨some "PreToolUse", some "Bash"⟩, ⟨some "PostToolUse", some "Bash"⟩,
         ⟨some "Notification", some "Read"⟩, ⟨some "PreToolUse", some "Edit"⟩,
         ⟨some "PreToolUse", none⟩, ⟨none, some "Edit"⟩], e.1 = some "Edit") := by
  refine ⟨by decide, ?_⟩
  rcases (tool_usage_shape
      [⟨some "PreToolUse", some "Bash"⟩, ⟨some "PostToolUse", some "Bash"⟩,
       ⟨some "Notification", some "Read"⟩, ⟨some "PreToolUse", some "Edit"⟩,
       ⟨some "PreToolUse", none⟩, ⟨none, some "Edit"⟩]).2.2.2.2
      ⟨some "PreToolUse", some "Edit"⟩ (by decide) "Edit" (Or.inl rfl) rfl with h | ⟨hlen, -⟩
  · exact h
  · exact absurd hlen (by decide)

/-! ## The two reports -/

/-- C7 (as stated) fails: when the table of usage records cannot be built, the run
prints that error and nothing else, although the hooks report on the same
environment has lines to print. -/
theorem usage_failure_skips_hooks :
    runCCStats envCreateTableFails = [Line.errCreateTable]
    ∧ analyzeHooksData envCreateTableFails
        = [Line.hooksHeader, Line.totalHooks 1, Line.byTypeHeader,
           Line.byType "PreToolUse" 1, Line.toolHeader, Line.toolUsage "Bash" 1] := by
  constructor
  · rfl
  · decide

theorem projectLines_all (rows : List (Option String × ℚ)) :
    (projectLines rows).all (fun l => !isHooksLine l) = true := by
  simp only [projectLines, List.all_eq_true, List.mem_map]
  rintro l ⟨row, _, hl⟩
  subst hl
  cases row.1 <;> rfl

theorem usageLines_all (env : Env) :
    (runCCStats (withoutHooks env)).all (fun l => !isHooksLine l) = true := by
  obtain ⟨hd, op, ad, te, ce, pe, hx, hdata, e1, e2, e3⟩ := env
  cases hd <;> cases op <;> cases ad <;> cases te <;> cases ce <;> cases pe <;>
    simp [runCCStats, withoutHooks, analyzeHooksData, isHooksLine]
  all_goals
    rename_i rel
    cases ht : tokenStatsQuery rel <;>
      simp [isHooksLine, List.all_cons, projectLines_all]
  have := projectLines_all (costByProjectQuery rel)
  simpa [List.all_eq_true] using this

theorem byTypeLines_hooks (rows : List (Option String × Nat)) (l : Line)
    (h : l ∈ byTypeLines rows) : isHooksLine l = true := by
  simp only [byTypeLines, List.mem_filterMap, Option.map_eq_some'] at h
  obtain ⟨row, _, t, _, hl⟩ := h
  subst hl
  rfl

theorem toolLines_hooks (rows : List (Option String × Nat)) (l : Line)
    (h : l ∈ toolLines rows) : isHooksLine l = true := by
  simp only [toolLines] at h
  split_ifs at h
  · simp only [List.mem_singleton] at h
    subst h
    rfl
  · simp only [List.mem_filterMap, Option.map_eq_some'] at h
    obtain ⟨row, _, t, _, hl⟩ := h
    subst hl
    rfl

theorem analyzeHooksData_hooks (env : Env) (l : Line) (h : l ∈ analyzeHooksData env) :
    isHooksLine l = true := by
  obtain ⟨hd, op, ad, te, ce, pe, hx, hdata, e1, e2, e3⟩ := env
  cases hx <;> cases hdata <;> simp only [analyzeHooksData] at h
  any_goals (simp at h)
  rename_i rel
  obtain ⟨-, h⟩ := h
  rcases h with h | h | ⟨-, h | h⟩ | ⟨-, h | h⟩
  · subst h; rfl
  · subst h; rfl
  · subst h; rfl
  · exact byTypeLines_hooks _ l h
  · subst h; rfl
  · exact toolLines_hooks _ l h

/-- C7 (as amended): the hooks report is the last step of the usage report. A
failure of a step of the usage report (home directory, engine, building the usage
relation, token totals, global cost, cost by project) prints the sections completed
so far and that step's error and ends the run, so the hooks report does not run;
when every step succeeds the run prints the three usage sections followed by the
lines of the hooks report. The lines of the usage report contain no hooks line, and
neither they nor the success of the usage report depend on the hook logs or on
failures inside the hooks report; the hooks report prints hooks lines only, and none
when the hooks directory is missing or the hook relation cannot be built or counted. -/
theorem hooks_report_follows_usage (env : Env) :
    (usageOk env = false → runCCStats env = runCCStats (withoutHooks env))
    ∧ (usageOk env = true →
        runCCStats env = runCCStats (withoutHooks env) ++ analyzeHooksData env)
    ∧ (∀ l ∈ runCCStats (withoutHooks env), isHooksLine l = false)
    ∧ (∀ (dir : Bool) (hooks : Option (List HookRow)) (e1 e2 e3 : Bool),
        runCCStats (withoutHooks (withHooksSide env dir hooks e1 e2 e3))
          = runCCStats (withoutHooks env)
        ∧ usageOk (withHooksSide env dir hooks e1 e2 e3) = usageOk env)
    ∧ (env.homeDir = none → runCCStats env = [Line.errHomeDir])
    ∧ (env.homeDir.isSome = true → env.dbOpens = false → runCCStats env = [Line.errOpen])
    ∧ (env.homeDir.isSome = true → env.dbOpens = true → env.all_data = none →
        runCCStats env = [Line.errCreateTable])
    ∧ (∀ rel, env.homeDir.isSome = true → env.dbOpens = true → env.all_data = some rel →
        (env.tokenStatsErr = true ∨ tokenStatsQuery rel = none) →
        runCCStats env = [Line.errTokenStats])
    ∧ (∀ rel t, env.homeDir.isSome = true → env.dbOpens = true →
        env.all_data = some rel → env.tokenStatsErr = false →
        tokenStatsQuery rel = some t →
        (env.costErr = true → runCCStats env = tokenSection t ++ [Line.errCost])
        ∧ (env.costErr = false → env.costByProjectErr = true →
            runCCStats env = tokenSection t ++ costSection rel ++ [Line.errCostByProject])
        ∧ (env.costErr = false → env.costByProjectErr = false →
            runCCStats env = tokenSection t ++ costSection rel ++ projectSection rel
              ++ analyzeHooksData env))
    ∧ (∀ l ∈ analyzeHooksData env, isHooksLine l = true)
    ∧ ((env.hooksDirExists = false ∨ env.hooks_data = none ∨ env.hookCountErr = true) →
        analyzeHooksData env = []) := by
  obtain ⟨hd, op, ad, te, ce, pe, hx, hdata, e1, e2, e3⟩ := env
  refine ⟨?_, ?_, ?_, ?_, ?_, ?_, ?_, ?_, ?_, ?_, ?_⟩
  · intro h
    cases hd <;> cases op <;> cases ad <;> cases te <;> cases ce <;> cases pe <;>
      simp_all [usageOk, runCCStats, withoutHooks]
  · intro h
    cases hd <;> cases op <;> cases ad <;> cases te <;> cases ce <;> cases pe <;>
      simp_all [usageOk, runCCStats, withoutHooks]
    rename_i rel
    cases ht : tokenStatsQuery rel
    · simp_all
    · simp [analyzeHooksData]
  · intro l hl
    have h := usageLines_all ⟨hd, op, ad, te, ce, pe, hx, hdata, e1, e2, e3⟩
    rw [List.all_eq_true] at h
    simpa using h l hl
  · intro dir hooks e1 e2 e3
    cases hd <;> cases op <;> cases ad <;> cases te <;> cases ce <;> cases pe <;>
      simp [runCCStats, withoutHooks, withHooksSide, analyzeHooksData, usageOk]
  · intro h
    simp only at h
    subst h
    rfl
  · intro h1 h2
    simp only at h1 h2
    subst h2
    cases hd with
    | none => simp at h1
    | some d => rfl
  · intro h1 h2 h3
    simp only at h1 h2 h3
    subst h2 h3
    cases hd with
    | none => simp at h1
    | some d => rfl
  · intro rel h1 h2 h3 h4
    simp only at h1 h2 h3 h4
    subst h2 h3
    cases hd with
    | none => simp at h1
    | some d =>
      rcases h4 with h4 | h4
      · subst h4
        rfl
      · cases te <;> simp [runCCStats, h4]
  · intro rel t h1 h2 h3 h4 h5
    simp only at h1 h2 h3 h4
    subst h2 h3 h4
    cases hd with
    | none => simp at h1
    | some d =>
      refine ⟨?_, ?_, ?_⟩
      · intro h6
        simp only at h6
        subst h6
        simp [runCCStats, h5, tokenSection]
      · intro h6 h7
        simp only at h6 h7
        subst h6 h7
        simp [runCCStats, h5, tokenSection, costSection]
      · intro h6 h7
        simp only at h6 h7
        subst h6 h7
        simp [runCCStats, h5, tokenSection, costSection, projectSection]
  · intro l hl
    exact analyzeHooksData_hooks _ l hl
  · intro h
    simp only at h
    rcases h with h | h | h
    · subst h
      rfl
    · subst h
      cases hx <;> rfl
    · subst h
      cases hx <;> cases hdata <;> simp [analyzeHooksData]

theorem hooks_report_follows_usage_witness :
    usageOk envAllOk = true
    ∧ runCCStats envAllOk = runCCStats (withoutHooks envAllOk) ++ analyzeHooksData envAllOk
    ∧ usageOk envCostFails = false
    ∧ runCCStats envCostFails
        = tokenSection ⟨some 100, some 50, none, none, some 150⟩ ++ [Line.errCost] :=
  ⟨by decide, (hooks_report_follows_usage envAllOk).2.1 (by decide), by decide,
   ((hooks_report_follows_usage envCostFails).2.2.2.2.2.2.2.2.1
      [⟨some 100, some 50, none, none, some "claude-opus-4", some "/a"⟩]
      ⟨some 100, some 50, none, none, some 150⟩ rfl rfl rfl rfl (by decide)).1 rfl⟩

/-! ## The recorder -/

theorem hasKey_iff (hookData : HookData) (key : String) :
    hasKey hookData key = true ↔ HasField hookData key := by
  simp only [hasKey, HasField, List.any_eq_true, beq_iff_eq]
  constructor
  · rintro ⟨⟨k, v⟩, hm, hk⟩
    exact ⟨v, by simpa [← hk] using hm⟩
  · rintro ⟨v, hm⟩
    exact ⟨(key, v), hm, rfl⟩

theorem handleHook_appendLog (w : HookWorld) (input : List (Fin 256)) (hookData : HookData)
    (hin : w.stdin = some input) (hparse : w.unmarshal input = some hookData)
    (ev : HookEvent) (h : Effect.appendLog ev ∈ (handleHook w).effects) :
    ev = ⟨w.now, eventTypeOf w.hookEventVar hookData, hookData, 0, "", ""⟩ := by
  obtain ⟨stdin, unmarshal, var, now, home, mk, op, en⟩ := w
  simp only at hin hparse
  subst hin
  cases home with
  | none => simp [handleHook, hparse] at h
  | some dir =>
    cases mk <;> cases op <;> cases en <;> simp [handleHook, hparse] at h
    exact h

/-- C9: for every input the recorder reads and decodes, a record is appended when
the remaining steps succeed, and every appended record carries the decoded input and
an event type that is the value of `CLAUDE_HOOK_EVENT` when one is supplied (a
non-empty value), overriding inference; otherwise PostToolUse when the decoded input
has a `tool` and a `result` field, PreToolUse when it has `tool` without `result`,
Notification when it has no `tool` but has `notification`, and Unknown otherwise. -/
theorem recorded_event_type (w : HookWorld) (input : List (Fin 256)) (hookData : HookData)
    (hin : w.stdin = some input) (hparse : w.unmarshal input = some hookData) :
    ((w.homeDir.isSome = true ∧ w.mkdirOk = true ∧ w.openOk = true ∧ w.encodeOk = true) →
        ∃ ev, (handleHook w).effects = [.mkdirAll, .appendLog ev, .stdout input])
    ∧ ∀ ev, Effect.appendLog ev ∈ (handleHook w).effects →
        ev.HookData = hookData
        ∧ (w.hookEventVar ≠ "" → ev.EventType = w.hookEventVar)
        ∧ (w.hookEventVar = "" →
            (HasField hookData "tool" → HasField hookData "result" →
              ev.EventType = "PostToolUse")
            ∧ (HasField hookData "tool" → ¬ HasField hookData "result" →
              ev.EventType = "PreToolUse")
            ∧ (¬ HasField hookData "tool" → HasField hookData "notification" →
              ev.EventType = "Notification")
            ∧ (¬ HasField hookData "tool" → ¬ HasField hookData "notification" →
              ev.EventType = "Unknown")) := by
  constructor
  · rintro ⟨h1, h2, h3, h4⟩
    obtain ⟨stdin, unmarshal, var, now, home, mk, op, en⟩ := w
    simp only at hin hparse h2 h3 h4
    subst hin h2 h3 h4
    cases home with
    | none => simp at h1
    | some dir =>
      exact ⟨⟨now, eventTypeOf var hookData, hookData, 0, "", ""⟩, by
        simp [handleHook, hparse]⟩
  · intro ev hev
    have he := handleHook_appendLog w input hookData hin hparse ev hev
    subst he
    refine ⟨rfl, ?_, ?_⟩
    · intro hv
      simp [eventTypeOf, hv]
    · intro hv
      simp only [← hasKey_iff]
      refine ⟨?_, ?_, ?_, ?_⟩ <;> intro h1 h2 <;> simp [eventTypeOf, hv, h1, h2]

theorem recorded_event_type_witness :
    (∃ ev, Effect.appendLog ev ∈ (handleHook (worldOk
          [123, 34, 116, 111, 111, 108, 34, 58, 34, 66, 97, 115, 104, 34, 44, 34, 114, 101,
            115, 117, 108, 116, 34, 58, 34, 111, 107, 34, 125]
          [("tool", .string "Bash"), ("result", .string "ok")] "")).effects
        ∧ ev.HookData = [("tool", .string "Bash"), ("result", .string "ok")]
        ∧ ev.EventType = "PostToolUse")
    ∧ (∃ ev, Effect.appendLog ev ∈ (handleHook (worldOk
          [123, 34, 116, 111, 111, 108, 34, 58, 34, 66, 97, 115, 104, 34, 125]
          [("tool", .string "Bash")] "")).effects
        ∧ ev.HookData = [("tool", .string "Bash")]
        ∧ ev.EventType = "PreToolUse")
    ∧ (∃ ev, Effect.appendLog ev ∈ (handleHook (worldOk
          [123, 34, 116, 111, 111, 108, 34, 58, 34, 66, 97, 115, 104, 34, 125]
          [("tool", .string "Bash")] "Stop")).effects
        ∧ ev.HookData = [("tool", .string "Bash")]
        ∧ ev.EventType = "Stop")
    ∧ (∃ ev, Effect.appendLog ev ∈ (handleHook (worldOk
          [123, 34, 110, 111, 116, 105, 102, 105, 99, 97, 116, 105, 111, 110, 34, 58, 34,
            104, 105, 34, 125]
          [("notification", .string "hi")] "")).effects
        ∧ ev.HookData = [("notification", .string "hi")]
        ∧ ev.EventType = "Notification") := by
  refine ⟨?_, ?_, ?_, ?_⟩
  · obtain ⟨hrec, hall⟩ := recorded_event_type (worldOk
        [123, 34, 116, 111, 111, 108, 34, 58, 34, 66, 97, 115, 104, 34, 44, 34, 114, 101,
          115, 117, 108, 116, 34, 58, 34, 111, 107, 34, 125]
        [("tool", .string "Bash"), ("result", .string "ok")] "") _ _ rfl rfl
    obtain ⟨ev, he⟩ := hrec ⟨rfl, rfl, rfl, rfl⟩
    have hm : Effect.appendLog ev ∈ (handleHook (worldOk
        [123, 34, 116, 111, 111, 108, 34, 58, 34, 66, 97, 115, 104, 34, 44, 34, 114, 101,
          115, 117, 108, 116, 34, 58, 34, 111, 107, 34, 125]
        [("tool", .string "Bash"), ("result", .string "ok")] "")).effects := by
      rw [he]; simp
    obtain ⟨hd, -, hinf⟩ := hall ev hm
    exact ⟨ev, hm, hd, (hinf rfl).1 ⟨.string "Bash", by simp⟩ ⟨.string "ok", by simp⟩⟩
  · obtain ⟨hrec, hall⟩ := recorded_event_type (worldOk
        [123, 34, 116, 111, 111, 108, 34, 58, 34, 66, 97, 115, 104, 34, 125]
        [("tool", .string "Bash")] "") _ _ rfl rfl
    obtain ⟨ev, he⟩ := hrec ⟨rfl, rfl, rfl, rfl⟩
    have hm : Effect.appendLog ev ∈ (handleHook (worldOk
        [123, 34, 116, 111, 111, 108, 34, 58, 34, 66, 97, 115, 104, 34, 125]
        [("tool", .string "Bash")] "")).effects := by
      rw [he]; simp
    obtain ⟨hd, -, hinf⟩ := hall ev hm
    exact ⟨ev, hm, hd, (hinf rfl).2.1 ⟨.string "Bash", by simp⟩
      (by rintro ⟨v, hv⟩; simp at hv)⟩
  · obtain ⟨hrec, hall⟩ := recorded_event_type (worldOk
        [123, 34, 116, 111, 111, 108, 34, 58, 34, 66, 97, 115, 104, 34, 125]
        [("tool", .string "Bash")] "Stop") _ _ rfl rfl
    obtain ⟨ev, he⟩ := hrec ⟨rfl, rfl, rfl, rfl⟩
    have hm : Effect.appendLog ev ∈ (handleHook (worldOk
        [123, 34, 116, 111, 111, 108, 34, 58, 34, 66, 97, 115, 104, 34, 125]
        [("tool", .string "Bash")] "Stop")).effects := by
      rw [he]; simp
    obtain ⟨hd, hov, -⟩ := hall ev hm
    exact ⟨ev, hm, hd, hov (by decide)⟩
  · obtain ⟨hrec, hall⟩ := recorded_event_type (worldOk
        [123, 34, 110, 111, 116, 105, 102, 105, 99, 97, 116, 105, 111, 110, 34, 58, 34,
          104, 105, 34, 125]
        [("notification", .string "hi")] "") _ _ rfl rfl
    obtain ⟨ev, he⟩ := hrec ⟨rfl, rfl, rfl, rfl⟩
    have hm : Effect.appendLog ev ∈ (handleHook (worldOk
        [123, 34, 110, 111, 116, 105, 102, 105, 99, 97, 116, 105, 111, 110, 34, 58, 34,
          104, 105, 34, 125]
        [("notification", .string "hi")] "")).effects := by
      rw [he]; simp
    obtain ⟨hd, -, hinf⟩ := hall ev hm
    exact ⟨ev, hm, hd, (hinf rfl).2.2.1 (by rintro ⟨v, hv⟩; simp at hv)
      ⟨.string "hi", by simp⟩⟩

/-- C10: the recorder is a pass-through. It returns no error exactly when reading,
decoding, the home directory, directory creation, file open and the write all
succeed; then its effects are, in this order, the directory, the appended record and
one write to standard output of exactly the bytes read, whatever the event type. When
it returns an error, nothing has been written to standard output. -/
theorem hook_pass_through (w : HookWorld) :
    ((handleHook w).err = none ↔
      (∃ input, w.stdin = some input ∧ (w.unmarshal input).isSome = true)
        ∧ w.homeDir.isSome = true ∧ w.mkdirOk = true ∧ w.openOk = true
        ∧ w.encodeOk = true)
    ∧ ((handleHook w).err = none →
        ∃ input ev, w.stdin = some input
          ∧ (handleHook w).effects = [.mkdirAll, .appendLog ev, .stdout input]
          ∧ stdoutBytes (handleHook w).effects = input)
    ∧ ((handleHook w).err ≠ none →
        stdoutBytes (handleHook w).effects = []
          ∧ ∀ e ∈ (handleHook w).effects, e.isStdout = false) := by
  obtain ⟨stdin, unmarshal, var, now, home, mk, op, en⟩ := w
  cases stdin with
  | none => simp [handleHook, stdoutBytes]
  | some input =>
    cases hu : unmarshal input with
    | none => simp [handleHook, hu, stdoutBytes]
    | some obj =>
      cases home with
      | none => simp [handleHook, hu, stdoutBytes]
      | some dir =>
        cases mk <;> cases op <;> cases en <;>
          simp [handleHook, hu, stdoutBytes, Effect.isStdout]

theorem hook_pass_through_witness :
    (handleHook (worldOk [123, 125] [] "Stop")).err = none
    ∧ stdoutBytes (handleHook (worldOk [123, 125] [] "Stop")).effects = [123, 125] :=
  have h : (handleHook (worldOk [123, 125] [] "Stop")).err = none := rfl
  ⟨h, by
    obtain ⟨input, ev, hs, -, hb⟩ := (hook_pass_through (worldOk [123, 125] [] "Stop")).2.1 h
    have : input = [123, 125] := by
      simp only [worldOk, Option.some.injEq] at hs
      exact hs.symm
    rw [hb, this]⟩

end CCStats
